import Mathlib

/-!
# Verification of the `pyramid_xmlrpc` / `repoze.bfg.xmlrpc` XML-RPC adapter

A shallow embedding of the package's protocol core:

* `xmlrpc_marshal`, `xmlrpc_response`, `parse_xmlrpc_request`, the
  `xmlrpc_view` decorator, the `XMLRPCView` multi-method base class and
  `includeme` are translated from `pyramid_xmlrpc/__init__.py` (the
  `repoze.bfg.xmlrpc` module is a near-duplicate of the same functions).
* The envelope codec (`xmlrpclib.dumps` / `xmlrpclib.loads`) and the
  `webob.Response` object are external collaborators of the repository, so
  they are modelled from the specification (each such definition carries a
  doc comment saying so).

Requests carry a declared `content_length` that in Python 2 may be `None`;
the comparison `None > (1 << 23)` is `False` there, which the embedding
makes explicit (`py2Gt`).  Byte strings are modelled as `List Nat`,
character strings as `List Char` / `String`.
-/

namespace PyramidXmlrpc

/-! ## Character-stream utilities -/

/-- Strip an exact literal from the front of a character stream; `none` when
the stream does not start with the literal. -/
def dropLit : List Char → List Char → Option (List Char)
  | [], s => some s
  | _ :: _, [] => none
  | p :: pt, c :: ct => if c = p then dropLit pt ct else none

/-- Split a stream at the first occurrence of `stop` (the stop character is
left on the remainder). -/
def takeNe (stop : Char) : List Char → List Char × List Char
  | [] => ([], [])
  | c :: t =>
    if c = stop then ([], c :: t)
    else
      let (a, r) := takeNe stop t
      (c :: a, r)

/-! ## Decimal numerals -/

def digitChar (n : Nat) : Char := Char.ofNat (48 + n)

def isDig (c : Char) : Bool := 48 ≤ c.toNat && c.toNat ≤ 57

/-- Decimal digits of `n`, most significant first; `fuel` bounds the
recursion (any `fuel > n` is enough). -/
def natChars : Nat → Nat → List Char
  | 0, _ => []
  | f + 1, n => if n < 10 then [digitChar n] else natChars f (n / 10) ++ [digitChar (n % 10)]

def natToChars (n : Nat) : List Char := natChars (n + 1) n

def intChars (i : Int) : List Char :=
  if i < 0 then '-' :: natToChars i.natAbs else natToChars i.natAbs

/-- Exactly `e` decimal digits of `m` (for `m < 10 ^ e`), with leading
zeros: the fractional part of a double. -/
def fracChars : Nat → Nat → List Char
  | 0, _ => []
  | k + 1, m => fracChars k (m / 10) ++ [digitChar (m % 10)]

def digSpan : List Char → List Char × List Char
  | [] => ([], [])
  | c :: t =>
    if isDig c then
      let (a, r) := digSpan t
      (c :: a, r)
    else ([], c :: t)

def digVal (ds : List Char) : Nat := ds.foldl (fun a c => a * 10 + (c.toNat - 48)) 0

def digHead : List Char → Bool
  | [] => false
  | c :: _ => isDig c

def parseNatChars (s : List Char) : Option (Nat × List Char) :=
  if digHead s then
    let (ds, r) := digSpan s
    some (digVal ds, r)
  else none

def parseIntChars (s : List Char) : Option (Int × List Char) :=
  match dropLit ['-'] s with
  | some t => (parseNatChars t).map (fun p => (-(p.1 : Int), p.2))
  | none => (parseNatChars s).map (fun p => ((p.1 : Int), p.2))

/-- Decimal with optional fraction, unsigned: returns the digits read as a
natural number together with the number of fraction digits. -/
def parseUDouble (s : List Char) : Option ((Nat × Nat) × List Char) :=
  match parseNatChars s with
  | none => none
  | some (a, r) =>
    match dropLit ['.'] r with
    | some r2 =>
      if digHead r2 then
        let (ds, r3) := digSpan r2
        some ((a * 10 ^ ds.length + digVal ds, ds.length), r3)
      else none
    | none => some ((a, 0), r)

def parseDoubleChars (s : List Char) : Option ((Int × Nat) × List Char) :=
  match dropLit ['-'] s with
  | some t => (parseUDouble t).map (fun p => ((-(p.1.1 : Int), p.1.2), p.2))
  | none => (parseUDouble s).map (fun p => (((p.1.1 : Int), p.1.2), p.2))

/-- Wire text of the double `mant / 10 ^ frac`. -/
def dblChars (mant : Int) (frac : Nat) : List Char :=
  let n := mant.natAbs
  let body :=
    if frac = 0 then natToChars n
    else natToChars (n / 10 ^ frac) ++ '.' :: fracChars frac (n % 10 ^ frac)
  if mant < 0 then '-' :: body else body

/-! ## XML text escaping -/

def escapeChar (c : Char) : List Char :=
  if c = '&' then "&amp;".data
  else if c = '<' then "&lt;".data
  else if c = '>' then "&gt;".data
  else [c]

def escList : List Char → List Char
  | [] => []
  | c :: t => escapeChar c ++ escList t

/-- Read character data up to the next `<`, translating the three XML-RPC
entities back; an unknown entity is malformed. -/
def parseTextF : List Char → Option (List Char × List Char)
  | [] => some ([], [])
  | c :: t =>
    if c = '<' then some ([], c :: t)
    else if c = '&' then
      match t with
      | 'a' :: 'm' :: 'p' :: ';' :: t2 => (parseTextF t2).map (fun p => ('&' :: p.1, p.2))
      | 'l' :: 't' :: ';' :: t2 => (parseTextF t2).map (fun p => ('<' :: p.1, p.2))
      | 'g' :: 't' :: ';' :: t2 => (parseTextF t2).map (fun p => ('>' :: p.1, p.2))
      | _ => none
    else (parseTextF t).map (fun p => (c :: p.1, p.2))

/-! ## Base64 -/

def b64Char (n : Nat) : Char :=
  if n < 26 then Char.ofNat (65 + n)
  else if n < 52 then Char.ofNat (97 + (n - 26))
  else if n < 62 then Char.ofNat (48 + (n - 52))
  else if n = 62 then '+'
  else '/'

def b64Val (c : Char) : Option Nat :=
  let n := c.toNat
  if 65 ≤ n && n ≤ 90 then some (n - 65)
  else if 97 ≤ n && n ≤ 122 then some (26 + (n - 97))
  else if 48 ≤ n && n ≤ 57 then some (52 + (n - 48))
  else if c = '+' then some 62
  else if c = '/' then some 63
  else none

def b64Enc : List (Fin 256) → List Char
  | [] => []
  | [b1] => [b64Char (b1.val / 4), b64Char (b1.val % 4 * 16), '=', '=']
  | [b1, b2] =>
    [b64Char (b1.val / 4), b64Char (b1.val % 4 * 16 + b2.val / 16), b64Char (b2.val % 16 * 4), '=']
  | b1 :: b2 :: b3 :: t =>
    b64Char (b1.val / 4) :: b64Char (b1.val % 4 * 16 + b2.val / 16) ::
      b64Char (b2.val % 16 * 4 + b3.val / 64) :: b64Char (b3.val % 64) :: b64Enc t

def b64Dec : List Char → Option (List (Fin 256))
  | [] => some []
  | c1 :: c2 :: c3 :: c4 :: t =>
    match b64Val c1, b64Val c2 with
    | some d1, some d2 =>
      if c3 = '=' then
        if c4 = '=' && d2 % 16 == 0 && t.isEmpty then
          if h : d1 * 4 + d2 / 16 < 256 then some [⟨d1 * 4 + d2 / 16, h⟩] else none
        else none
      else
        match b64Val c3 with
        | some d3 =>
          if c4 = '=' then
            if d3 % 4 == 0 && t.isEmpty then
              if h1 : d1 * 4 + d2 / 16 < 256 then
                if h2 : d2 % 16 * 16 + d3 / 4 < 256 then
                  some [⟨d1 * 4 + d2 / 16, h1⟩, ⟨d2 % 16 * 16 + d3 / 4, h2⟩]
                else none
              else none
            else none
          else
            match b64Val c4 with
            | some d4 =>
              if h1 : d1 * 4 + d2 / 16 < 256 then
                if h2 : d2 % 16 * 16 + d3 / 4 < 256 then
                  if h3 : d3 % 4 * 64 + d4 < 256 then
                    (b64Dec t).map
                      (fun bs => ⟨d1 * 4 + d2 / 16, h1⟩ :: ⟨d2 % 16 * 16 + d3 / 4, h2⟩ ::
                        ⟨d3 % 4 * 64 + d4, h3⟩ :: bs)
                  else none
                else none
              else none
            | none => none
        | none => none
    | _, _ => none
  | _ => none

/-! ## The XML-RPC value model

Modelled from the spec: the RpcValue tagged union over Integer, Double,
Boolean, String, DateTime, Binary, Array, Struct and Nil.  A double is the
decimal `mant / 10 ^ frac`; a DateTime carries its wire text (the spec's
"opaque wire-format wrapper"); Binary carries raw bytes. -/

inductive RpcValue where
  | int (i : Int)
  | boolean (b : Bool)
  | str (s : String)
  | double (mant : Int) (frac : Nat)
  | dateTime (wire : String)
  | base64 (bytes : List (Fin 256))
  | array (items : List RpcValue)
  | strct (fields : List (String × RpcValue))
  | nil

mutual

/-- Parser-node count of a value: the fuel a parse of its encoding needs. -/
def vsize : RpcValue → Nat
  | .array items => 1 + isize items
  | .strct fs => 1 + msize fs
  | _ => 1

def isize : List RpcValue → Nat
  | [] => 1
  | v :: t => 1 + vsize v + isize t

def msize : List (String × RpcValue) → Nat
  | [] => 1
  | (_, v) :: t => 1 + vsize v + msize t

end

mutual

/-- Whether a value contains no Nil anywhere. -/
def nilFree : RpcValue → Bool
  | .array items => nilFreeItems items
  | .strct fs => nilFreeMembers fs
  | .nil => false
  | _ => true

def nilFreeItems : List RpcValue → Bool
  | [] => true
  | v :: t => nilFree v && nilFreeItems t

def nilFreeMembers : List (String × RpcValue) → Bool
  | [] => true
  | (_, v) :: t => nilFree v && nilFreeMembers t

end

mutual

/-- Modelled from the spec: the encoding of one value into the XML-RPC
`<value>` body (strict wire format, §6). -/
def encValue : RpcValue → List Char
  | .int i => "<int>".data ++ intChars i ++ "</int>".data
  | .boolean b => "<boolean>".data ++ (if b then ['1'] else ['0']) ++ "</boolean>".data
  | .str s => "<string>".data ++ escList s.data ++ "</string>".data
  | .double m e => "<double>".data ++ dblChars m e ++ "</double>".data
  | .dateTime w => "<dateTime.iso8601>".data ++ escList w.data ++ "</dateTime.iso8601>".data
  | .base64 bs => "<base64>".data ++ b64Enc bs ++ "</base64>".data
  | .array items => "<array><data>".data ++ encItems items ++ "</data></array>".data
  | .strct fs => "<struct>".data ++ encMembers fs ++ "</struct>".data
  | .nil => "<nil/>".data

def encItems : List RpcValue → List Char
  | [] => []
  | v :: t => "<value>".data ++ encValue v ++ "</value>".data ++ encItems t

def encMembers : List (String × RpcValue) → List Char
  | [] => []
  | (k, v) :: t =>
    "<member><name>".data ++ escList k.data ++ "</name><value>".data ++ encValue v ++
      "</value></member>".data ++ encMembers t

end

/-- Encoding of a `<params>` body: one `<param>` per value. -/
def encParams : List RpcValue → List Char
  | [] => []
  | v :: t => "<param><value>".data ++ encValue v ++ "</value></param>".data ++ encParams t

mutual

/-- Modelled from the spec: the decoder of one `<value>` body.  `fuel`
bounds the recursion depth; `vsize` of the encoded value is enough. -/
def parseValueF : Nat → List Char → Option (RpcValue × List Char)
  | 0, _ => none
  | f + 1, s =>
    match dropLit "<int>".data s with
    | some r =>
      match parseIntChars r with
      | some (i, r2) => (dropLit "</int>".data r2).map (fun r3 => (.int i, r3))
      | none => none
    | none =>
    match dropLit "<boolean>".data s with
    | some r =>
      match r with
      | c :: r2 =>
        if c = '0' then (dropLit "</boolean>".data r2).map (fun r3 => (.boolean false, r3))
        else if c = '1' then (dropLit "</boolean>".data r2).map (fun r3 => (.boolean true, r3))
        else none
      | [] => none
    | none =>
    match dropLit "<string>".data s with
    | some r =>
      match parseTextF r with
      | some (cs, r2) => (dropLit "</string>".data r2).map (fun r3 => (.str ⟨cs⟩, r3))
      | none => none
    | none =>
    match dropLit "<double>".data s with
    | some r =>
      match parseDoubleChars r with
      | some (me, r2) => (dropLit "</double>".data r2).map (fun r3 => (.double me.1 me.2, r3))
      | none => none
    | none =>
    match dropLit "<dateTime.iso8601>".data s with
    | some r =>
      match parseTextF r with
      | some (cs, r2) =>
        (dropLit "</dateTime.iso8601>".data r2).map (fun r3 => (.dateTime ⟨cs⟩, r3))
      | none => none
    | none =>
    match dropLit "<base64>".data s with
    | some r =>
      match takeNe '<' r with
      | (cs, r2) =>
        match b64Dec cs with
        | some bs => (dropLit "</base64>".data r2).map (fun r3 => (.base64 bs, r3))
        | none => none
    | none =>
    match dropLit "<array><data>".data s with
    | some r =>
      match parseItemsF f r with
      | some (items, r2) => (dropLit "</data></array>".data r2).map (fun r3 => (.array items, r3))
      | none => none
    | none =>
    match dropLit "<struct>".data s with
    | some r =>
      match parseMembersF f r with
      | some (fs, r2) => (dropLit "</struct>".data r2).map (fun r3 => (.strct fs, r3))
      | none => none
    | none =>
    (dropLit "<nil/>".data s).map (fun r => (.nil, r))

def parseItemsF : Nat → List Char → Option (List RpcValue × List Char)
  | 0, _ => none
  | f + 1, s =>
    match dropLit "<value>".data s with
    | none => some ([], s)
    | some r =>
      match parseValueF f r with
      | none => none
      | some (v, r2) =>
        match dropLit "</value>".data r2 with
        | none => none
        | some r3 =>
          match parseItemsF f r3 with
          | none => none
          | some (l, r4) => some (v :: l, r4)

def parseMembersF : Nat → List Char → Option (List (String × RpcValue) × List Char)
  | 0, _ => none
  | f + 1, s =>
    match dropLit "<member><name>".data s with
    | none => some ([], s)
    | some r =>
      match parseTextF r with
      | none => none
      | some (kcs, r1) =>
        match dropLit "</name><value>".data r1 with
        | none => none
        | some r2 =>
          match parseValueF f r2 with
          | none => none
          | some (v, r3) =>
            match dropLit "</value></member>".data r3 with
            | none => none
            | some r4 =>
              match parseMembersF f r4 with
              | none => none
              | some (l, r5) => some ((⟨kcs⟩, v) :: l, r5)

end

/-- Fuel needed to parse an encoded `<params>` body. -/
def psize : List RpcValue → Nat
  | [] => 1
  | v :: t => 1 + vsize v + psize t

def parseParamsF : Nat → List Char → Option (List RpcValue × List Char)
  | 0, _ => none
  | f + 1, s =>
    match dropLit "<param><value>".data s with
    | none => some ([], s)
    | some r =>
      match parseValueF f r with
      | none => none
      | some (v, r2) =>
        match dropLit "</value></param>".data r2 with
        | none => none
        | some r3 =>
          match parseParamsF f r3 with
          | none => none
          | some (l, r4) => some (v :: l, r4)

/-! ## Character sets and the byte layer -/

inductive Charset where
  | utf8
  | usAscii
  | iso8859_1
deriving DecidableEq

def Charset.name : Charset → String
  | .utf8 => "utf-8"
  | .usAscii => "us-ascii"
  | .iso8859_1 => "iso-8859-1"

def utf8EncodeChar (c : Char) : List Nat :=
  let n := c.toNat
  if n < 128 then [n]
  else if n < 2048 then [192 + n / 64, 128 + n % 64]
  else if n < 65536 then [224 + n / 4096, 128 + n / 64 % 64, 128 + n % 64]
  else [240 + n / 262144, 128 + n / 4096 % 64, 128 + n / 64 % 64, 128 + n % 64]

def utf8Enc : List Char → List Nat
  | [] => []
  | c :: t => utf8EncodeChar c ++ utf8Enc t

/-- The character with code point `n`, when `n` is a Unicode scalar value. -/
def mkChar (n : Nat) : Option Char :=
  if _h : n.isValidChar then some (Char.ofNat n) else none

def isCont (b : Nat) : Bool := 128 ≤ b && b < 192

/-- Decode one UTF-8 sequence: the first byte and the remaining stream. -/
def utf8DecOne (b1 : Nat) (t : List Nat) : Option (Char × List Nat) :=
  if b1 < 128 then (mkChar b1).map (fun c => (c, t))
  else if b1 < 192 then none
  else if b1 < 224 then
    match t with
    | b2 :: t2 =>
      if isCont b2 then (mkChar ((b1 - 192) * 64 + (b2 - 128))).map (fun c => (c, t2))
      else none
    | [] => none
  else if b1 < 240 then
    match t with
    | b2 :: b3 :: t3 =>
      if isCont b2 && isCont b3 then
        (mkChar ((b1 - 224) * 4096 + (b2 - 128) * 64 + (b3 - 128))).map (fun c => (c, t3))
      else none
    | _ => none
  else if b1 < 248 then
    match t with
    | b2 :: b3 :: b4 :: t4 =>
      if isCont b2 && isCont b3 && isCont b4 then
        (mkChar ((b1 - 240) * 262144 + (b2 - 128) * 4096 + (b3 - 128) * 64 + (b4 - 128))).map
          (fun c => (c, t4))
      else none
    | _ => none
  else none

def utf8DecF : Nat → List Nat → Option (List Char)
  | _, [] => some []
  | 0, _ :: _ => none
  | f + 1, b :: t =>
    match utf8DecOne b t with
    | some (c, rest) => (utf8DecF f rest).map (fun cs => c :: cs)
    | none => none

def utf8Dec (bs : List Nat) : Option (List Char) := utf8DecF bs.length bs

/-- Modelled from the spec: encoding one character under the configured
character set; `none` when the character is not representable (§4.1,
"characters not representable in that character set fail"). -/
def Charset.encChar : Charset → Char → Option (List Nat)
  | .utf8, c => some (utf8EncodeChar c)
  | .usAscii, c => if c.toNat < 128 then some [c.toNat] else none
  | .iso8859_1, c => if c.toNat < 256 then some [c.toNat] else none

def charsetEnc (cs : Charset) : List Char → Option (List Nat)
  | [] => some []
  | c :: t =>
    match cs.encChar c, charsetEnc cs t with
    | some bs, some rest => some (bs ++ rest)
    | _, _ => none

/-! ## Errors, documents, marshalling -/

/-- The error taxonomy (§7): `tooLarge` is the `ValueError` of the size
guard (it carries the declared size); `malformed` covers expat and
unmarshalling failures; `fault` is the `xmlrpclib.Fault` raised by `loads`
on a fault response; `serializationError` is marshalling Nil without
`allow_none`; `encodingError` is a string outside the configured charset;
`methodNotFound` is the `getattr` failure of the multi-method view;
`noMethodName` is `getattr` with a `None` method name. -/
inductive RpcError where
  | tooLarge (declared : Int)
  | malformed
  | fault (faultCode : Int) (faultString : String)
  | serializationError
  | encodingError
  | methodNotFound (name : String)
  | noMethodName
deriving DecidableEq

/-- An `xmlrpclib.Fault`: an integer fault code and a string message. -/
structure Fault where
  faultCode : Int
  faultString : String

/-- The argument of `xmlrpc_marshal`: a normal value or a Fault instance
(the source tests `isinstance(data, xmlrpclib.Fault)`). -/
inductive RpcData where
  | value (v : RpcValue)
  | fault (f : Fault)

def hdrPlain : List Char := "<?xml version='1.0'?>\n".data

/-- The XML declaration: it names the encoding exactly when the encoding
is not the codec-native default (as `xmlrpclib.dumps` does). -/
def header (cs : Charset) : List Char :=
  if cs = .utf8 then hdrPlain
  else ("<?xml version='1.0' encoding='" ++ cs.name ++ "'?>\n").data

def respDoc (params : List RpcValue) : List Char :=
  "<methodResponse>".data ++ "<params>".data ++ encParams params ++
    "</params></methodResponse>".data

def faultStruct (f : Fault) : RpcValue :=
  .strct [("faultCode", .int f.faultCode), ("faultString", .str f.faultString)]

def faultDoc (f : Fault) : List Char :=
  "<methodResponse>".data ++ "<fault><value>".data ++ encValue (faultStruct f) ++
    "</value></fault></methodResponse>".data

def callDoc (methodName : String) (params : List RpcValue) : List Char :=
  "<methodCall><methodName>".data ++ escList methodName.data ++ "</methodName><params>".data ++
    encParams params ++ "</params></methodCall>".data

/-- Modelled from the spec: the character-level part of `xmlrpclib.dumps`
for a response.  A Fault becomes a fault document whatever the flags; a
value is wrapped in a single-element parameter list; Nil anywhere requires
`allow_none`, else `SerializationError` (§4.1). -/
def marshalChars (data : RpcData) (allow_none : Bool) (cs : Charset) : Except RpcError (List Char) :=
  match data with
  | .fault f => .ok (header cs ++ faultDoc f)
  | .value v =>
    if allow_none || nilFree v then .ok (header cs ++ respDoc [v])
    else .error .serializationError

/-- Modelled from the spec: the final charset encoding of the document to
bytes; a character outside the charset is an `EncodingError`. -/
def encodeBytes (cs : Charset) (chars : List Char) : Except RpcError (List Nat) :=
  match charsetEnc cs chars with
  | some bs => .ok bs
  | none => .error .encodingError

/-- `encoding=None` means the codec-native default (utf-8), as in
`xmlrpclib.dumps`. -/
def resolveCharset : Option Charset → Charset
  | none => .utf8
  | some cs => cs

/-- `xmlrpc_marshal(data, allow_none, encoding)`: a Fault is marshalled
into a fault response, anything else into a one-parameter success
response (`pyramid_xmlrpc/__init__.py:7-17`). -/
def xmlrpc_marshal (data : RpcData) (allow_none : Bool) (encoding : Option Charset) :
    Except RpcError (List Nat) := do
  let cs := resolveCharset encoding
  let chars ← marshalChars data allow_none cs
  encodeBytes cs chars

/-- Modelled from the spec: `xmlrpclib.dumps` with a `methodname`,
producing a methodCall document (the tests use it to build request
bodies). -/
def xmlrpc_dumps_call (methodName : String) (params : List RpcValue) (allow_none : Bool)
    (encoding : Option Charset) : Except RpcError (List Nat) := do
  let cs := resolveCharset encoding
  if allow_none || nilFreeItems params then
    encodeBytes cs (header cs ++ callDoc methodName params)
  else .error .serializationError

/-! ## Decoding (`xmlrpclib.loads`) -/

def lookupMember (key : String) : List (String × RpcValue) → Option RpcValue
  | [] => none
  | (k, v) :: t => if k = key then some v else lookupMember key t

def extractFault : RpcValue → Option (Int × String)
  | .strct fs =>
    match lookupMember "faultCode" fs, lookupMember "faultString" fs with
    | some (.int c), some (.str m) => some (c, m)
    | _, _ => none
  | _ => none

def parseHeaderChars (s : List Char) : Option (List Char) :=
  match dropLit hdrPlain s with
  | some r => some r
  | none =>
    match dropLit "<?xml version='1.0' encoding='".data s with
    | none => none
    | some r =>
      match takeNe '\'' r with
      | (_, _ :: r2) => dropLit "'?>\n".data r2
      | (_, []) => none

def loadsCharsF (fuel : Nat) (s : List Char) :
    Except RpcError (List RpcValue × Option String) :=
  match parseHeaderChars s with
  | none => .error .malformed
  | some r =>
    match dropLit "<methodCall><methodName>".data r with
    | some r1 =>
      match parseTextF r1 with
      | none => .error .malformed
      | some (name, r2) =>
        match dropLit "</methodName><params>".data r2 with
        | none => .error .malformed
        | some r3 =>
          match parseParamsF fuel r3 with
          | none => .error .malformed
          | some (ps, r4) =>
            match dropLit "</params></methodCall>".data r4 with
            | some [] => .ok (ps, some ⟨name⟩)
            | _ => .error .malformed
    | none =>
      match dropLit "<methodResponse>".data r with
      | none => .error .malformed
      | some r1 =>
        match dropLit "<fault><value>".data r1 with
        | some r2 =>
          match parseValueF fuel r2 with
          | none => .error .malformed
          | some (v, r3) =>
            match dropLit "</value></fault></methodResponse>".data r3 with
            | some [] =>
              match extractFault v with
              | some (c, m) => .error (.fault c m)
              | none => .error .malformed
            | _ => .error .malformed
        | none =>
          match dropLit "<params>".data r1 with
          | none => .error .malformed
          | some r2 =>
            match parseParamsF fuel r2 with
            | none => .error .malformed
            | some (ps, r3) =>
              match dropLit "</params></methodResponse>".data r3 with
              | some [] => .ok (ps, none)
              | _ => .error .malformed

def loadsChars (s : List Char) : Except RpcError (List RpcValue × Option String) :=
  loadsCharsF (s.length + 1) s

/-- Modelled from the spec: `xmlrpclib.loads(body, use_datetime)`.  It
decodes a methodCall into `(params, some methodname)` and a success
methodResponse into `(params, none)`; a fault response raises the Fault
(here: the `fault` error).  `use_datetime` only selects the host-language
representation of decoded date/time values — both representations carry
the same instant, so the model keeps one `dateTime` constructor and the
flag has no model-level effect. -/
def xmlrpclib_loads (body : List Nat) (use_datetime : Bool) :
    Except RpcError (List RpcValue × Option String) :=
  let _ := use_datetime
  match utf8Dec body with
  | none => .error .malformed
  | some chars => loadsChars chars

/-! ## The request guard and `parse_xmlrpc_request` -/

/-- An inbound request: the core reads exactly the declared
`content_length` (which Python may report as `None`) and the byte body
(§6). -/
structure Request where
  content_length : Option Int
  body : List Nat

/-- Python 2's `x > y` for `x` a possibly-`None` integer: `None` compares
less than every integer, so `None > y` is `False`. -/
def py2Gt : Option Int → Int → Bool
  | none, _ => false
  | some a, b => decide (b < a)

/-- The DOS threshold `1 << 23` (8 MiB). -/
def sizeLimit : Int := ((1 <<< 23 : Nat) : Int)

/-- `parse_xmlrpc_request(request, use_datetime)`
(`pyramid_xmlrpc/__init__.py:32-41`): reject a declared content length
above `1 << 23` with the too-large `ValueError` before touching the body,
then deserialize the body. -/
def parse_xmlrpc_request (request : Request) (use_datetime : Bool) :
    Except RpcError (List RpcValue × Option String) :=
  if py2Gt request.content_length sizeLimit then
    .error (.tooLarge (request.content_length.getD 0))
  else
    xmlrpclib_loads request.body use_datetime

/-! ## The response object and `xmlrpc_response` -/

/-- Modelled from the spec: the webob `Response` surface this core
touches — body bytes, content type, content length, status (§6). -/
structure WebobResponse where
  body : List Nat
  content_type : String
  content_length : Nat
  status : String
deriving DecidableEq

/-- Modelled from the spec: `webob.Response(xml)` — a fresh response whose
body is `xml` (webob's own defaults for the other fields). -/
def webobResponse (xml : List Nat) : WebobResponse :=
  { body := xml, content_type := "text/html", content_length := xml.length, status := "200 OK" }

/-- `xmlrpc_response(data, allow_none, encoding)`
(`pyramid_xmlrpc/__init__.py:20-29`): marshal, build a webob response,
then set `content_type = 'text/xml'` and `content_length = len(xml)`. -/
def xmlrpc_response (data : RpcData) (allow_none : Bool) (encoding : Option Charset) :
    Except RpcError WebobResponse := do
  let xml ← xmlrpc_marshal data allow_none encoding
  let response := webobResponse xml
  .ok { response with content_type := "text/xml", content_length := xml.length }

/-! ## The two dispatch modes -/

/-- `xmlrpc_view(wrapped)` (`pyramid_xmlrpc/__init__.py:44-102`): the
decorator's `_curried(context, request)` parses the request with the
default `use_datetime`, calls the wrapped function positionally on the
params after the context, and builds the response with the default
`allow_none` and encoding. -/
def xmlrpc_view {Ctx : Type} (wrapped : Ctx → List RpcValue → RpcData) (context : Ctx)
    (request : Request) : Except RpcError WebobResponse := do
  let pr ← parse_xmlrpc_request request false
  let value := wrapped context pr.1
  xmlrpc_response value false none

/-- The `XMLRPCView` base class (`pyramid_xmlrpc/__init__.py:105-132`).
`methods` models `getattr(self, name)` over the subclass's handler
methods as an explicit name lookup (the spec's reflection-free
reimplementation of dynamic method lookup, §9); `allow_none`, `charset`
and `use_datetime` are the class attributes (class defaults `false`,
`none`, `false`, settable by `includeme` and overridable per subclass). -/
structure XMLRPCView where
  allow_none : Bool
  charset : Option Charset
  use_datetime : Bool
  methods : String → Option (List RpcValue → RpcData)
  request : Request

/-- `XMLRPCView.__call__` (`pyramid_xmlrpc/__init__.py:118-132`):
deserialize with `self.use_datetime`, look the decoded method name up on
the instance, invoke it positionally on the decoded params, and respond
with `self.allow_none` and `self.charset`. -/
def XMLRPCView.call (self : XMLRPCView) : Except RpcError WebobResponse := do
  let pr ← parse_xmlrpc_request self.request self.use_datetime
  match pr.2 with
  | none => .error .noMethodName
  | some name =>
    match self.methods name with
    | none => .error (.methodNotFound name)
    | some handler => xmlrpc_response (handler pr.1) self.allow_none self.charset

/-! ## Configuration (`includeme`) -/

/-- The `xmlrpc.*` entries of the deployment settings read by
`includeme`; the boolean ones arrive as strings (absent means the
dict-get default `False`), the charset as a charset name (resolved here
to the `Charset` it names). -/
structure Settings where
  xmlrpc_allow_none : Option String
  xmlrpc_use_datetime : Option String
  xmlrpc_charset : Option Charset

/-- Modelled from the spec: `pyramid.settings.asbool` on an optional
settings string; an absent setting is the source's literal `False`
default. -/
def asbool : Option String → Bool
  | none => false
  | some s => ["true", "yes", "on", "y", "t", "1"].contains ⟨s.data.map Char.toLower⟩

/-- The process-wide `XMLRPCView` class attributes that `includeme`
assigns. -/
structure ViewDefaults where
  allow_none : Bool
  use_datetime : Bool
  charset : Option Charset

/-- `includeme(config)` (`pyramid_xmlrpc/__init__.py:135-140`): reads the
`xmlrpc.*` settings and installs them as the process-wide `XMLRPCView`
class defaults. -/
def includeme (settings : Settings) : ViewDefaults :=
  { allow_none := asbool settings.xmlrpc_allow_none
  , use_datetime := asbool settings.xmlrpc_use_datetime
  , charset := settings.xmlrpc_charset }

/-- A view instance under the installed class defaults (a subclass that
overrides nothing). -/
def mkView (defaults : ViewDefaults) (methods : String → Option (List RpcValue → RpcData))
    (request : Request) : XMLRPCView :=
  { allow_none := defaults.allow_none
  , charset := defaults.charset
  , use_datetime := defaults.use_datetime
  , methods := methods
  , request := request }

/-! ## Concrete dispatch scenario (the spec's `a_method` exchange) -/

/-- A registry method that returns its single argument unchanged. -/
def demoHandler : List RpcValue → RpcData := fun params => .value (params.headD .nil)

/-- A registry exposing exactly one method, `a_method`. -/
def demoRegistry : String → Option (List RpcValue → RpcData) :=
  fun name => if name = "a_method" then some demoHandler else none

/-- The wire body of `xmlrpclib.dumps(("what",), methodname="a_method")`. -/
def demoBody : List Nat :=
  (xmlrpc_dumps_call "a_method" [.str "what"] false none).toOption.getD []

def demoRequest : Request :=
  { content_length := some (demoBody.length : Int), body := demoBody }

/-- The multi-method view of the dispatch scenario, under the stock class
defaults. -/
def demoView : XMLRPCView :=
  { allow_none := false, charset := none, use_datetime := false
  , methods := demoRegistry, request := demoRequest }

/-- Deployment settings that switch every xmlrpc option on. -/
def demoSettings : Settings :=
  { xmlrpc_allow_none := some "true", xmlrpc_use_datetime := some "yes"
  , xmlrpc_charset := some Charset.iso8859_1 }

/-! ## Round-trip lemmas: streams and numerals -/

theorem dropLit_append (p s : List Char) : dropLit p (p ++ s) = some s := by
  induction p with
  | nil => rfl
  | cons c t ih => simp [dropLit, ih]

theorem dropLit_self (p : List Char) : dropLit p p = some [] := by
  simpa using dropLit_append p []

theorem takeNe_append (stop : Char) (a r : List Char) (ha : ∀ c ∈ a, c ≠ stop) :
    takeNe stop (a ++ stop :: r) = (a, stop :: r) := by
  induction a with
  | nil => simp [takeNe]
  | cons c t ih =>
    have hc : c ≠ stop := ha c (by simp)
    simp only [List.cons_append, takeNe, if_neg hc, List.append_eq,
      ih (fun x hx => ha x (by simp [hx]))]

theorem toNat_char_ofNat (n : Nat) (h : n.isValidChar) : (Char.ofNat n).toNat = n := by
  rw [Char.ofNat, dif_pos h]
  rfl

theorem toNat_digitChar (n : Nat) (h : n < 10) : (digitChar n).toNat = 48 + n :=
  toNat_char_ofNat (48 + n) (Or.inl (by omega))

theorem isDig_digitChar (n : Nat) (h : n < 10) : isDig (digitChar n) = true := by
  simp [isDig, toNat_digitChar n h]
  omega

theorem foldl_digVal (ds : List Char) (acc : Nat) :
    ds.foldl (fun a c => a * 10 + (c.toNat - 48)) acc = acc * 10 ^ ds.length + digVal ds := by
  induction ds generalizing acc with
  | nil => simp [digVal]
  | cons d t ih =>
    have h1 := ih (acc * 10 + (d.toNat - 48))
    have h2 := ih (0 * 10 + (d.toNat - 48))
    simp only [digVal, List.foldl_cons] at h1 h2 ⊢
    rw [h1, h2, List.length_cons, pow_succ]
    ring

theorem digVal_natChars : ∀ f n, n < f → digVal (natChars f n) = n := by
  intro f
  induction f with
  | zero => omega
  | succ f ih =>
    intro n hn
    by_cases h10 : n < 10
    · simp only [natChars, if_pos h10, digVal, List.foldl_cons, List.foldl_nil]
      rw [toNat_digitChar n h10]
      omega
    · have hdiv : n / 10 < f := by omega
      simp only [natChars, if_neg h10, digVal, List.foldl_append, List.foldl_cons,
        List.foldl_nil]
      rw [foldl_digVal (natChars f (n / 10)) 0]
      rw [ih (n / 10) hdiv, toNat_digitChar (n % 10) (by omega)]
      omega

theorem natChars_all_digits : ∀ f n c, c ∈ natChars f n → isDig c = true := by
  intro f
  induction f with
  | zero => intro n c hc; simp [natChars] at hc
  | succ f ih =>
    intro n c hc
    by_cases h10 : n < 10
    · simp only [natChars, if_pos h10, List.mem_singleton] at hc
      rw [hc]
      exact isDig_digitChar n h10
    · simp only [natChars, if_neg h10, List.mem_append, List.mem_singleton] at hc
      rcases hc with hc | hc
      · exact ih (n / 10) c hc
      · rw [hc]
        exact isDig_digitChar (n % 10) (by omega)

theorem natToChars_all_digits (n : Nat) (c : Char) (hc : c ∈ natToChars n) : isDig c = true :=
  natChars_all_digits (n + 1) n c hc

theorem natToChars_ne_nil (n : Nat) : natToChars n ≠ [] := by
  by_cases h10 : n < 10 <;> simp [natToChars, natChars, h10]

theorem digSpan_append (ds r : List Char) (hds : ∀ c ∈ ds, isDig c = true)
    (hr : digHead r = false) : digSpan (ds ++ r) = (ds, r) := by
  induction ds with
  | nil =>
    cases r with
    | nil => rfl
    | cons c t =>
      simp only [digHead] at hr
      simp [digSpan, hr]
  | cons c t ih =>
    have hc : isDig c = true := hds c (by simp)
    simp only [List.cons_append, digSpan, hc, if_pos, List.append_eq,
      ih (fun x hx => hds x (by simp [hx]))]

theorem parseNatChars_natToChars (n : Nat) (r : List Char) (hr : digHead r = false) :
    parseNatChars (natToChars n ++ r) = some (n, r) := by
  obtain ⟨c, t, hct⟩ : ∃ c t, natToChars n = c :: t := by
    rcases h : natToChars n with _ | ⟨c, t⟩
    · exact absurd h (natToChars_ne_nil n)
    · exact ⟨c, t, rfl⟩
  have hall : ∀ x ∈ natToChars n, isDig x = true := fun x hx => natToChars_all_digits n x hx
  have hc : isDig c = true := hall c (by rw [hct]; simp)
  have hd : digHead (natToChars n ++ r) = true := by
    rw [hct]
    simpa [digHead] using hc
  rw [parseNatChars, if_pos hd, digSpan_append _ _ hall hr]
  have : digVal (natToChars n) = n := digVal_natChars (n + 1) n (by omega)
  simp [this]

theorem isDig_ne_dash (c : Char) (h : isDig c = true) : c ≠ '-' := by
  intro hc
  rw [hc] at h
  simp [isDig] at h

theorem isDig_ne_dot (c : Char) (h : isDig c = true) : c ≠ '.' := by
  intro hc
  rw [hc] at h
  simp [isDig] at h

theorem dropLit_dash_natToChars (n : Nat) (r : List Char) :
    dropLit ['-'] (natToChars n ++ r) = none := by
  rcases h : natToChars n with _ | ⟨c, t⟩
  · exact absurd h (natToChars_ne_nil n)
  · have hc : isDig c = true := natToChars_all_digits n c (by rw [h]; simp)
    simp [dropLit, isDig_ne_dash c hc]

theorem parseIntChars_intChars (i : Int) (r : List Char) (hr : digHead r = false) :
    parseIntChars (intChars i ++ r) = some (i, r) := by
  by_cases hneg : i < 0
  · have habs : -(i.natAbs : Int) = i := by omega
    simp only [intChars, if_pos hneg, List.cons_append, parseIntChars,
      show dropLit ['-'] ('-' :: (natToChars i.natAbs ++ r)) =
        some (natToChars i.natAbs ++ r) from by simp [dropLit],
      parseNatChars_natToChars i.natAbs r hr, Option.map_some']
    rw [habs]
  · have habs : ((i.natAbs : Nat) : Int) = i := by omega
    simp only [intChars, if_neg hneg, parseIntChars, dropLit_dash_natToChars,
      parseNatChars_natToChars i.natAbs r hr, Option.map_some']
    rw [habs]

theorem fracChars_length (e : Nat) : ∀ m, (fracChars e m).length = e := by
  induction e with
  | zero => intro m; rfl
  | succ k ih => intro m; simp [fracChars, ih]

theorem fracChars_all_digits (e : Nat) : ∀ m c, c ∈ fracChars e m → isDig c = true := by
  induction e with
  | zero => intro m c hc; simp [fracChars] at hc
  | succ k ih =>
    intro m c hc
    simp only [fracChars, List.mem_append, List.mem_singleton] at hc
    rcases hc with hc | hc
    · exact ih _ c hc
    · rw [hc]
      exact isDig_digitChar _ (by omega)

theorem digVal_fracChars (e : Nat) : ∀ m, m < 10 ^ e → digVal (fracChars e m) = m := by
  induction e with
  | zero =>
    intro m hm
    interval_cases m
    rfl
  | succ k ih =>
    intro m hm
    have hdiv : m / 10 < 10 ^ k := by
      rw [Nat.div_lt_iff_lt_mul (by norm_num)]
      calc m < 10 ^ (k + 1) := hm
        _ = 10 ^ k * 10 := by rw [pow_succ]
    simp only [fracChars, digVal, List.foldl_append, List.foldl_cons, List.foldl_nil]
    rw [foldl_digVal (fracChars k (m / 10)) 0]
    rw [ih (m / 10) hdiv, toNat_digitChar (m % 10) (by omega)]
    omega

theorem parseUDouble_e0 (n : Nat) (r : List Char) (hr : digHead r = false)
    (hdot : dropLit ['.'] r = none) :
    parseUDouble (natToChars n ++ r) = some ((n, 0), r) := by
  simp only [parseUDouble, parseNatChars_natToChars n r hr, hdot]

theorem parseUDouble_frac (n e : Nat) (he : 0 < e) (r : List Char) (hr : digHead r = false) :
    parseUDouble ((natToChars (n / 10 ^ e) ++ '.' :: fracChars e (n % 10 ^ e)) ++ r) =
      some ((n, e), r) := by
  have hmod : n % 10 ^ e < 10 ^ e := Nat.mod_lt n (by positivity)
  obtain ⟨c, fr, hct⟩ : ∃ c fr, fracChars e (n % 10 ^ e) = c :: fr := by
    rcases h : fracChars e (n % 10 ^ e) with _ | ⟨c, fr⟩
    · have := fracChars_length e (n % 10 ^ e)
      rw [h] at this
      simp at this
      omega
    · exact ⟨c, fr, rfl⟩
  have hdigfrac : ∀ x ∈ fracChars e (n % 10 ^ e), isDig x = true :=
    fun x hx => fracChars_all_digits e _ x hx
  have hdighead : digHead (fracChars e (n % 10 ^ e) ++ r) = true := by
    rw [hct]
    simpa [digHead] using hdigfrac c (by rw [hct]; simp)
  have hdot2 : digHead ('.' :: fracChars e (n % 10 ^ e) ++ r) = false := by
    simp [digHead, isDig]
  simp only [List.append_assoc, List.cons_append]
  simp only [parseUDouble,
    parseNatChars_natToChars (n / 10 ^ e) _ (by simpa using hdot2),
    show ∀ X : List Char, dropLit ['.'] ('.' :: X) = some X from fun X => by simp [dropLit],
    if_pos hdighead]
  rw [digSpan_append _ _ hdigfrac hr]
  rw [digVal_fracChars e _ hmod, fracChars_length]
  have hdm := Nat.div_add_mod n (10 ^ e)
  have hdm2 : n / 10 ^ e * 10 ^ e + n % 10 ^ e = n := by rw [Nat.mul_comm] at hdm; exact hdm
  rw [hdm2]

theorem parseDoubleChars_dblChars (m : Int) (e : Nat) (r : List Char)
    (hr : digHead r = false) (hdot : dropLit ['.'] r = none) :
    parseDoubleChars (dblChars m e ++ r) = some ((m, e), r) := by
  have hbody : parseUDouble
      ((if e = 0 then natToChars m.natAbs
        else natToChars (m.natAbs / 10 ^ e) ++ '.' :: fracChars e (m.natAbs % 10 ^ e)) ++ r) =
      some ((m.natAbs, e), r) := by
    by_cases he : e = 0
    · subst he
      simpa using parseUDouble_e0 m.natAbs r hr hdot
    · rw [if_neg he]
      exact parseUDouble_frac m.natAbs e (by omega) r hr
  have hdash : dropLit ['-']
      ((if e = 0 then natToChars m.natAbs
        else natToChars (m.natAbs / 10 ^ e) ++ '.' :: fracChars e (m.natAbs % 10 ^ e)) ++ r) =
      none := by
    by_cases he : e = 0
    · subst he
      simpa using dropLit_dash_natToChars m.natAbs r
    · rw [if_neg he, List.append_assoc]
      exact dropLit_dash_natToChars (m.natAbs / 10 ^ e) _
  by_cases hneg : m < 0
  · have habs : -(m.natAbs : Int) = m := by omega
    simp only [dblChars, if_pos hneg, List.cons_append, parseDoubleChars,
      show ∀ X : List Char, dropLit ['-'] ('-' :: X) = some X from fun X => by simp [dropLit],
      hbody, Option.map_some']
    rw [habs]
  · have habs : ((m.natAbs : Nat) : Int) = m := by omega
    simp only [dblChars, if_neg hneg, parseDoubleChars, hdash, hbody, Option.map_some']
    rw [habs]

/-! ## Round-trip lemma: escaped text -/

theorem parseTextF_lt (t : List Char) : parseTextF ('<' :: t) = some ([], '<' :: t) := by
  rw [parseTextF.eq_def]
  simp

theorem parseTextF_other (c : Char) (X : List Char) (h2 : ¬c = '<') (h1 : ¬c = '&') :
    parseTextF (c :: X) = (parseTextF X).map (fun p => (c :: p.1, p.2)) := by
  rw [parseTextF.eq_def]
  simp only [if_neg h2, if_neg h1]

theorem parseTextF_escList (s t : List Char) :
    parseTextF (escList s ++ '<' :: t) = some (s, '<' :: t) := by
  have hamp : ∀ X : List Char,
      parseTextF ('&' :: 'a' :: 'm' :: 'p' :: ';' :: X) =
        (parseTextF X).map (fun p => ('&' :: p.1, p.2)) := fun X => rfl
  have hlt : ∀ X : List Char,
      parseTextF ('&' :: 'l' :: 't' :: ';' :: X) =
        (parseTextF X).map (fun p => ('<' :: p.1, p.2)) := fun X => rfl
  have hgt : ∀ X : List Char,
      parseTextF ('&' :: 'g' :: 't' :: ';' :: X) =
        (parseTextF X).map (fun p => ('>' :: p.1, p.2)) := fun X => rfl
  induction s with
  | nil =>
    rw [show escList [] ++ '<' :: t = '<' :: t from rfl]
    exact parseTextF_lt t
  | cons c cs ih =>
    by_cases h1 : c = '&'
    · subst h1
      rw [show escList ('&' :: cs) = '&' :: 'a' :: 'm' :: 'p' :: ';' :: escList cs from rfl]
      simp only [List.cons_append, hamp, ih, Option.map_some']
    · by_cases h2 : c = '<'
      · subst h2
        rw [show escList ('<' :: cs) = '&' :: 'l' :: 't' :: ';' :: escList cs from rfl]
        simp only [List.cons_append, hlt, ih, Option.map_some']
      · by_cases h3 : c = '>'
        · subst h3
          rw [show escList ('>' :: cs) = '&' :: 'g' :: 't' :: ';' :: escList cs from rfl]
          simp only [List.cons_append, hgt, ih, Option.map_some']
        · rw [show escList (c :: cs) = escapeChar c ++ escList cs from rfl]
          rw [show escapeChar c = [c] from by simp [escapeChar, h1, h2, h3]]
          simp only [List.cons_append, List.nil_append]
          rw [parseTextF_other c _ h2 h1, ih]
          rfl

/-! ## Round-trip lemmas: base64 -/

theorem b64Val_b64Char : ∀ n < 64, b64Val (b64Char n) = some n := by decide

theorem b64Char_ne_pad : ∀ n < 64, b64Char n ≠ '=' := by decide

theorem b64Char_ne_lt : ∀ n < 64, b64Char n ≠ '<' := by decide

theorem b64Dec_b64Enc : ∀ bs : List (Fin 256), b64Dec (b64Enc bs) = some bs
  | [] => rfl
  | [b1] => by
    have hb1 := b1.isLt
    rw [show b64Enc [b1] = [b64Char (b1.val / 4), b64Char (b1.val % 4 * 16), '=', '='] from rfl]
    simp only [b64Dec, b64Val_b64Char (b1.val / 4) (by omega),
      b64Val_b64Char (b1.val % 4 * 16) (by omega)]
    rw [if_pos trivial]
    simp only [show b1.val % 4 * 16 % 16 = 0 from by omega,
      show b1.val / 4 * 4 + b1.val % 4 * 16 / 16 = b1.val from by omega]
    simp [hb1, Fin.eta]
  | [b1, b2] => by
    have hb1 := b1.isLt
    have hb2 := b2.isLt
    rw [show b64Enc [b1, b2] = [b64Char (b1.val / 4), b64Char (b1.val % 4 * 16 + b2.val / 16),
      b64Char (b2.val % 16 * 4), '='] from rfl]
    simp only [b64Dec, b64Val_b64Char (b1.val / 4) (by omega),
      b64Val_b64Char (b1.val % 4 * 16 + b2.val / 16) (by omega),
      b64Val_b64Char (b2.val % 16 * 4) (by omega)]
    rw [if_neg (b64Char_ne_pad (b2.val % 16 * 4) (by omega))]
    rw [if_pos trivial]
    simp only [show b2.val % 16 * 4 % 4 = 0 from by omega,
      show b1.val / 4 * 4 + (b1.val % 4 * 16 + b2.val / 16) / 16 = b1.val from by omega,
      show (b1.val % 4 * 16 + b2.val / 16) % 16 * 16 + b2.val % 16 * 4 / 4 = b2.val from by
        omega]
    simp [hb1, hb2, Fin.eta]
  | b1 :: b2 :: b3 :: t => by
    have hb1 := b1.isLt
    have hb2 := b2.isLt
    have hb3 := b3.isLt
    rw [show b64Enc (b1 :: b2 :: b3 :: t) = b64Char (b1.val / 4) ::
      b64Char (b1.val % 4 * 16 + b2.val / 16) :: b64Char (b2.val % 16 * 4 + b3.val / 64) ::
      b64Char (b3.val % 64) :: b64Enc t from rfl]
    simp only [b64Dec, b64Val_b64Char (b1.val / 4) (by omega),
      b64Val_b64Char (b1.val % 4 * 16 + b2.val / 16) (by omega),
      b64Val_b64Char (b2.val % 16 * 4 + b3.val / 64) (by omega),
      b64Val_b64Char (b3.val % 64) (by omega)]
    rw [if_neg (b64Char_ne_pad (b2.val % 16 * 4 + b3.val / 64) (by omega))]
    rw [if_neg (b64Char_ne_pad (b3.val % 64) (by omega))]
    simp only [show b1.val / 4 * 4 + (b1.val % 4 * 16 + b2.val / 16) / 16 = b1.val from by omega,
      show (b1.val % 4 * 16 + b2.val / 16) % 16 * 16 + (b2.val % 16 * 4 + b3.val / 64) / 4 =
        b2.val from by omega,
      show (b2.val % 16 * 4 + b3.val / 64) % 4 * 64 + b3.val % 64 = b3.val from by omega]
    rw [b64Dec_b64Enc t]
    simp [hb1, hb2, hb3, Fin.eta]

theorem b64Enc_ne_lt : ∀ bs : List (Fin 256), ∀ c ∈ b64Enc bs, c ≠ '<'
  | [] => by simp [b64Enc]
  | [b1] => by
    have hb1 := b1.isLt
    intro c hc
    rw [show b64Enc [b1] = [b64Char (b1.val / 4), b64Char (b1.val % 4 * 16), '=', '='] from
      rfl] at hc
    simp only [List.mem_cons, List.not_mem_nil, or_false] at hc
    rcases hc with h | h | h | h <;> rw [h]
    · exact b64Char_ne_lt _ (by omega)
    · exact b64Char_ne_lt _ (by omega)
    · decide
    · decide
  | [b1, b2] => by
    have hb1 := b1.isLt
    have hb2 := b2.isLt
    intro c hc
    rw [show b64Enc [b1, b2] = [b64Char (b1.val / 4), b64Char (b1.val % 4 * 16 + b2.val / 16),
      b64Char (b2.val % 16 * 4), '='] from rfl] at hc
    simp only [List.mem_cons, List.not_mem_nil, or_false] at hc
    rcases hc with h | h | h | h <;> rw [h]
    · exact b64Char_ne_lt _ (by omega)
    · exact b64Char_ne_lt _ (by omega)
    · exact b64Char_ne_lt _ (by omega)
    · decide
  | b1 :: b2 :: b3 :: t => by
    have hb1 := b1.isLt
    have hb2 := b2.isLt
    have hb3 := b3.isLt
    intro c hc
    rw [show b64Enc (b1 :: b2 :: b3 :: t) = b64Char (b1.val / 4) ::
      b64Char (b1.val % 4 * 16 + b2.val / 16) :: b64Char (b2.val % 16 * 4 + b3.val / 64) ::
      b64Char (b3.val % 64) :: b64Enc t from rfl] at hc
    simp only [List.mem_cons] at hc
    rcases hc with h | h | h | h | h
    · rw [h]; exact b64Char_ne_lt _ (by omega)
    · rw [h]; exact b64Char_ne_lt _ (by omega)
    · rw [h]; exact b64Char_ne_lt _ (by omega)
    · rw [h]; exact b64Char_ne_lt _ (by omega)
    · exact b64Enc_ne_lt t c h

/-! ## Round-trip lemmas: the byte layer -/

theorem mkChar_toNat (c : Char) : mkChar c.toNat = some c := by
  have h : c.toNat.isValidChar := c.valid
  rw [mkChar, dif_pos h, Char.ofNat_toNat]

theorem utf8EncodeChar_length_pos (c : Char) : 1 ≤ (utf8EncodeChar c).length := by
  rw [utf8EncodeChar]
  split
  · simp
  · split
    · simp
    · split <;> simp

theorem utf8DecOne_enc (c : Char) (rest : List Nat) :
    utf8DecOne ((utf8EncodeChar c).headD 0) ((utf8EncodeChar c).tail ++ rest) = some (c, rest) := by
  have hval : c.toNat.isValidChar := c.valid
  have hlt : c.toNat < 1114112 := by
    rcases hval with h | ⟨ha, hb⟩ <;> omega
  by_cases h1 : c.toNat < 128
  · rw [show utf8EncodeChar c = [c.toNat] from by simp [utf8EncodeChar, h1]]
    simp only [List.headD_cons, List.tail_cons, List.nil_append]
    simp only [utf8DecOne, if_pos h1, mkChar_toNat, Option.map_some']
  · by_cases h2 : c.toNat < 2048
    · rw [show utf8EncodeChar c = [192 + c.toNat / 64, 128 + c.toNat % 64] from by
        simp [utf8EncodeChar, h1, h2]]
      simp only [List.headD_cons, List.tail_cons, List.cons_append, List.nil_append]
      rw [utf8DecOne]
      rw [if_neg (by omega), if_neg (by omega), if_pos (by omega)]
      rw [if_pos (show isCont (128 + c.toNat % 64) = true from by simp [isCont]; omega)]
      rw [show (192 + c.toNat / 64 - 192) * 64 + (128 + c.toNat % 64 - 128) = c.toNat from by
        omega]
      rw [mkChar_toNat]
      rfl
    · by_cases h3 : c.toNat < 65536
      · rw [show utf8EncodeChar c =
          [224 + c.toNat / 4096, 128 + c.toNat / 64 % 64, 128 + c.toNat % 64] from by
          simp [utf8EncodeChar, h1, h2, h3]]
        simp only [List.headD_cons, List.tail_cons, List.cons_append, List.nil_append]
        rw [utf8DecOne]
        rw [if_neg (by omega), if_neg (by omega), if_neg (by omega), if_pos (by omega)]
        have hc : (isCont (128 + c.toNat / 64 % 64) && isCont (128 + c.toNat % 64)) = true := by
          simp [isCont]
          omega
        simp [hc]
        rw [show c.toNat / 4096 * 4096 + c.toNat / 64 % 64 * 64 + c.toNat % 64 = c.toNat from by
          omega]
        exact mkChar_toNat c
      · rw [show utf8EncodeChar c = [240 + c.toNat / 262144, 128 + c.toNat / 4096 % 64,
          128 + c.toNat / 64 % 64, 128 + c.toNat % 64] from by
          simp [utf8EncodeChar, h1, h2, h3]]
        simp only [List.headD_cons, List.tail_cons, List.cons_append, List.nil_append]
        rw [utf8DecOne]
        rw [if_neg (by omega), if_neg (by omega), if_neg (by omega), if_neg (by omega),
          if_pos (by omega)]
        have hc : (isCont (128 + c.toNat / 4096 % 64) && isCont (128 + c.toNat / 64 % 64) &&
            isCont (128 + c.toNat % 64)) = true := by
          simp [isCont]
          omega
        simp [hc]
        rw [show c.toNat / 262144 * 262144 + c.toNat / 4096 % 64 * 4096 + c.toNat / 64 % 64 * 64 +
          c.toNat % 64 = c.toNat from by omega]
        exact mkChar_toNat c

theorem utf8DecF_enc (cs : List Char) :
    ∀ f, (utf8Enc cs).length ≤ f → utf8DecF f (utf8Enc cs) = some cs := by
  induction cs with
  | nil => intro f _; cases f <;> rfl
  | cons c t ih =>
    intro f hf
    have hpos := utf8EncodeChar_length_pos c
    have hlen : (utf8Enc (c :: t)).length = (utf8EncodeChar c).length + (utf8Enc t).length := by
      rw [show utf8Enc (c :: t) = utf8EncodeChar c ++ utf8Enc t from rfl, List.length_append]
    obtain ⟨f2, rfl⟩ : ∃ f2, f = f2 + 1 := by
      cases f with
      | zero => omega
      | succ f2 => exact ⟨f2, rfl⟩
    have hdec := utf8DecOne_enc c (utf8Enc t)
    obtain ⟨b, bs, hb⟩ : ∃ b bs, utf8EncodeChar c = b :: bs := by
      rcases henc : utf8EncodeChar c with _ | ⟨b, bs⟩
      · rw [henc] at hpos; simp at hpos
      · exact ⟨b, bs, rfl⟩
    rw [hb] at hdec
    simp only [List.headD_cons, List.tail_cons] at hdec
    rw [show utf8Enc (c :: t) = utf8EncodeChar c ++ utf8Enc t from rfl, hb, List.cons_append]
    rw [hb, List.length_cons] at hlen
    have hih := ih f2 (by omega)
    simp only [utf8DecF, hdec, hih, Option.map_some']

theorem utf8Dec_utf8Enc (cs : List Char) : utf8Dec (utf8Enc cs) = some cs :=
  utf8DecF_enc cs (utf8Enc cs).length le_rfl

theorem charsetEnc_utf8 (cs : List Char) : charsetEnc .utf8 cs = some (utf8Enc cs) := by
  induction cs with
  | nil => rfl
  | cons c t ih => simp [charsetEnc, Charset.encChar, utf8Enc, ih]

/-! ## The master round-trip: parsing an encoded value -/

theorem one_le_vsize (v : RpcValue) : 1 ≤ vsize v := by
  cases v <;> simp [vsize]

theorem fuel_succ_of_le (fuel n : Nat) (h : n ≤ fuel) (hn : 1 ≤ n) : ∃ f, fuel = f + 1 := by
  cases fuel with
  | zero => omega
  | succ f => exact ⟨f, rfl⟩

mutual

theorem parseValueF_encValue (v : RpcValue) (fuel : Nat) (rest : List Char)
    (h : vsize v ≤ fuel) : parseValueF fuel (encValue v ++ rest) = some (v, rest) := by
  match v with
  | .int i =>
    obtain ⟨f, rfl⟩ := fuel_succ_of_le fuel _ h (one_le_vsize _)
    simp only [encValue, List.append_assoc]
    simp only [parseValueF, dropLit_append,
      parseIntChars_intChars i ("</int>".data ++ rest) rfl, Option.map_some']
  | .boolean b =>
    obtain ⟨f, rfl⟩ := fuel_succ_of_le fuel _ h (one_le_vsize _)
    have e1 : ∀ X : List Char, dropLit "<int>".data ("<boolean>".data ++ X) = none :=
      fun _ => rfl
    simp only [encValue, List.append_assoc]
    cases b
    · rw [show (if (false : Bool) then ['1'] else ['0']) = ['0'] from rfl]
      simp only [parseValueF, e1, dropLit_append, List.cons_append, List.nil_append,
        Option.map_some']
      rfl
    · rw [show (if (true : Bool) then ['1'] else ['0']) = ['1'] from rfl]
      simp only [parseValueF, e1, dropLit_append, List.cons_append, List.nil_append,
        Option.map_some']
      rfl
  | .str s =>
    obtain ⟨f, rfl⟩ := fuel_succ_of_le fuel _ h (one_le_vsize _)
    have e1 : ∀ X : List Char, dropLit "<int>".data ("<string>".data ++ X) = none :=
      fun _ => rfl
    have e2 : ∀ X : List Char, dropLit "<boolean>".data ("<string>".data ++ X) = none :=
      fun _ => rfl
    have e9 : ∀ X : List Char, dropLit "</string>".data ('<' :: ("/string>".data ++ X)) =
      some X := fun _ => rfl
    simp only [encValue, List.append_assoc]
    rw [show "</string>".data ++ rest = '<' :: ("/string>".data ++ rest) from rfl]
    simp only [parseValueF, e1, e2, dropLit_append, parseTextF_escList, e9, Option.map_some']
  | .double m e =>
    obtain ⟨f, rfl⟩ := fuel_succ_of_le fuel _ h (one_le_vsize _)
    have e1 : ∀ X : List Char, dropLit "<int>".data ("<double>".data ++ X) = none :=
      fun _ => rfl
    have e2 : ∀ X : List Char, dropLit "<boolean>".data ("<double>".data ++ X) = none :=
      fun _ => rfl
    have e3 : ∀ X : List Char, dropLit "<string>".data ("<double>".data ++ X) = none :=
      fun _ => rfl
    simp only [encValue, List.append_assoc]
    simp only [parseValueF, e1, e2, e3, dropLit_append,
      parseDoubleChars_dblChars m e ("</double>".data ++ rest) rfl rfl, Option.map_some']
  | .dateTime w =>
    obtain ⟨f, rfl⟩ := fuel_succ_of_le fuel _ h (one_le_vsize _)
    have e1 : ∀ X : List Char, dropLit "<int>".data ("<dateTime.iso8601>".data ++ X) = none :=
      fun _ => rfl
    have e2 : ∀ X : List Char,
      dropLit "<boolean>".data ("<dateTime.iso8601>".data ++ X) = none := fun _ => rfl
    have e3 : ∀ X : List Char,
      dropLit "<string>".data ("<dateTime.iso8601>".data ++ X) = none := fun _ => rfl
    have e4 : ∀ X : List Char,
      dropLit "<double>".data ("<dateTime.iso8601>".data ++ X) = none := fun _ => rfl
    have e9 : ∀ X : List Char,
      dropLit "</dateTime.iso8601>".data ('<' :: ("/dateTime.iso8601>".data ++ X)) = some X :=
      fun _ => rfl
    simp only [encValue, List.append_assoc]
    rw [show "</dateTime.iso8601>".data ++ rest =
      '<' :: ("/dateTime.iso8601>".data ++ rest) from rfl]
    simp only [parseValueF, e1, e2, e3, e4, dropLit_append, parseTextF_escList, e9,
      Option.map_some']
  | .base64 bs =>
    obtain ⟨f, rfl⟩ := fuel_succ_of_le fuel _ h (one_le_vsize _)
    have e1 : ∀ X : List Char, dropLit "<int>".data ("<base64>".data ++ X) = none :=
      fun _ => rfl
    have e2 : ∀ X : List Char, dropLit "<boolean>".data ("<base64>".data ++ X) = none :=
      fun _ => rfl
    have e3 : ∀ X : List Char, dropLit "<string>".data ("<base64>".data ++ X) = none :=
      fun _ => rfl
    have e4 : ∀ X : List Char, dropLit "<double>".data ("<base64>".data ++ X) = none :=
      fun _ => rfl
    have e5 : ∀ X : List Char,
      dropLit "<dateTime.iso8601>".data ("<base64>".data ++ X) = none := fun _ => rfl
    have e9 : ∀ X : List Char, dropLit "</base64>".data ('<' :: ("/base64>".data ++ X)) =
      some X := fun _ => rfl
    simp only [encValue, List.append_assoc]
    rw [show "</base64>".data ++ rest = '<' :: ("/base64>".data ++ rest) from rfl]
    simp only [parseValueF, e1, e2, e3, e4, e5, dropLit_append,
      takeNe_append '<' (b64Enc bs) ("/base64>".data ++ rest) (b64Enc_ne_lt bs),
      b64Dec_b64Enc, e9, Option.map_some']
  | .array items =>
    have hi : isize items ≤ fuel - 1 := by
      have h2 : vsize (.array items) = 1 + isize items := by simp [vsize]
      omega
    obtain ⟨f, rfl⟩ := fuel_succ_of_le fuel _ h (one_le_vsize _)
    have e1 : ∀ X : List Char, dropLit "<int>".data ("<array><data>".data ++ X) = none :=
      fun _ => rfl
    have e2 : ∀ X : List Char, dropLit "<boolean>".data ("<array><data>".data ++ X) = none :=
      fun _ => rfl
    have e3 : ∀ X : List Char, dropLit "<string>".data ("<array><data>".data ++ X) = none :=
      fun _ => rfl
    have e4 : ∀ X : List Char, dropLit "<double>".data ("<array><data>".data ++ X) = none :=
      fun _ => rfl
    have e5 : ∀ X : List Char,
      dropLit "<dateTime.iso8601>".data ("<array><data>".data ++ X) = none := fun _ => rfl
    have e6 : ∀ X : List Char, dropLit "<base64>".data ("<array><data>".data ++ X) = none :=
      fun _ => rfl
    simp only [encValue, List.append_assoc]
    simp only [parseValueF, e1, e2, e3, e4, e5, e6, dropLit_append,
      parseItemsF_encItems items f ("</data></array>".data ++ rest) (by omega) rfl,
      Option.map_some']
  | .strct fs =>
    have hi : msize fs ≤ fuel - 1 := by
      have h2 : vsize (.strct fs) = 1 + msize fs := by simp [vsize]
      omega
    obtain ⟨f, rfl⟩ := fuel_succ_of_le fuel _ h (one_le_vsize _)
    have e1 : ∀ X : List Char, dropLit "<int>".data ("<struct>".data ++ X) = none :=
      fun _ => rfl
    have e2 : ∀ X : List Char, dropLit "<boolean>".data ("<struct>".data ++ X) = none :=
      fun _ => rfl
    have e3 : ∀ X : List Char, dropLit "<string>".data ("<struct>".data ++ X) = none :=
      fun _ => rfl
    have e4 : ∀ X : List Char, dropLit "<double>".data ("<struct>".data ++ X) = none :=
      fun _ => rfl
    have e5 : ∀ X : List Char,
      dropLit "<dateTime.iso8601>".data ("<struct>".data ++ X) = none := fun _ => rfl
    have e6 : ∀ X : List Char, dropLit "<base64>".data ("<struct>".data ++ X) = none :=
      fun _ => rfl
    have e7 : ∀ X : List Char, dropLit "<array><data>".data ("<struct>".data ++ X) = none :=
      fun _ => rfl
    simp only [encValue, List.append_assoc]
    simp only [parseValueF, e1, e2, e3, e4, e5, e6, e7, dropLit_append,
      parseMembersF_encMembers fs f ("</struct>".data ++ rest) (by omega) rfl,
      Option.map_some']
  | .nil =>
    obtain ⟨f, rfl⟩ := fuel_succ_of_le fuel _ h (one_le_vsize _)
    have e1 : ∀ X : List Char, dropLit "<int>".data ("<nil/>".data ++ X) = none := fun _ => rfl
    have e2 : ∀ X : List Char, dropLit "<boolean>".data ("<nil/>".data ++ X) = none :=
      fun _ => rfl
    have e3 : ∀ X : List Char, dropLit "<string>".data ("<nil/>".data ++ X) = none :=
      fun _ => rfl
    have e4 : ∀ X : List Char, dropLit "<double>".data ("<nil/>".data ++ X) = none :=
      fun _ => rfl
    have e5 : ∀ X : List Char, dropLit "<dateTime.iso8601>".data ("<nil/>".data ++ X) = none :=
      fun _ => rfl
    have e6 : ∀ X : List Char, dropLit "<base64>".data ("<nil/>".data ++ X) = none :=
      fun _ => rfl
    have e7 : ∀ X : List Char, dropLit "<array><data>".data ("<nil/>".data ++ X) = none :=
      fun _ => rfl
    have e8 : ∀ X : List Char, dropLit "<struct>".data ("<nil/>".data ++ X) = none :=
      fun _ => rfl
    simp only [encValue, List.append_assoc]
    simp only [parseValueF, e1, e2, e3, e4, e5, e6, e7, e8, dropLit_append, Option.map_some']

theorem parseItemsF_encItems (l : List RpcValue) (fuel : Nat) (rest : List Char)
    (h : isize l ≤ fuel) (hrest : dropLit "<value>".data rest = none) :
    parseItemsF fuel (encItems l ++ rest) = some (l, rest) := by
  match l with
  | [] =>
    obtain ⟨f, rfl⟩ : ∃ f, fuel = f + 1 := by
      cases fuel with
      | zero => simp [isize] at h
      | succ f => exact ⟨f, rfl⟩
    simp only [encItems, List.nil_append]
    simp only [parseItemsF, hrest]
  | v :: t =>
    have hsz : isize (v :: t) = 1 + vsize v + isize t := by simp [isize]
    obtain ⟨f, rfl⟩ : ∃ f, fuel = f + 1 := by
      cases fuel with
      | zero => omega
      | succ f => exact ⟨f, rfl⟩
    simp only [encItems, List.append_assoc]
    simp only [parseItemsF, dropLit_append,
      parseValueF_encValue v f ("</value>".data ++ (encItems t ++ rest)) (by omega),
      parseItemsF_encItems t f rest (by omega) hrest]

theorem parseMembersF_encMembers (l : List (String × RpcValue)) (fuel : Nat) (rest : List Char)
    (h : msize l ≤ fuel) (hrest : dropLit "<member><name>".data rest = none) :
    parseMembersF fuel (encMembers l ++ rest) = some (l, rest) := by
  match l with
  | [] =>
    obtain ⟨f, rfl⟩ : ∃ f, fuel = f + 1 := by
      cases fuel with
      | zero => simp [msize] at h
      | succ f => exact ⟨f, rfl⟩
    simp only [encMembers, List.nil_append]
    simp only [parseMembersF, hrest]
  | (k, v) :: t =>
    have hsz : msize ((k, v) :: t) = 1 + vsize v + msize t := by simp [msize]
    obtain ⟨f, rfl⟩ : ∃ f, fuel = f + 1 := by
      cases fuel with
      | zero => omega
      | succ f => exact ⟨f, rfl⟩
    have e9 : ∀ X : List Char,
      dropLit "</name><value>".data ('<' :: ("/name><value>".data ++ X)) = some X :=
      fun _ => rfl
    simp only [encMembers, List.append_assoc]
    rw [show "</name><value>".data ++ (encValue v ++ ("</value></member>".data ++
      (encMembers t ++ rest))) = '<' :: ("/name><value>".data ++ (encValue v ++
      ("</value></member>".data ++ (encMembers t ++ rest)))) from rfl]
    simp only [parseMembersF, dropLit_append, parseTextF_escList, e9,
      parseValueF_encValue v f ("</value></member>".data ++ (encMembers t ++ rest)) (by omega),
      parseMembersF_encMembers t f rest (by omega) hrest]

end

/-! ## Params, size bounds, and whole-document round trips -/

theorem parseParamsF_encParams (l : List RpcValue) (fuel : Nat) (rest : List Char)
    (h : psize l ≤ fuel) (hrest : dropLit "<param><value>".data rest = none) :
    parseParamsF fuel (encParams l ++ rest) = some (l, rest) := by
  induction l generalizing fuel with
  | nil =>
    obtain ⟨f, rfl⟩ : ∃ f, fuel = f + 1 := by
      cases fuel with
      | zero => simp [psize] at h
      | succ f => exact ⟨f, rfl⟩
    simp only [encParams, List.nil_append]
    simp only [parseParamsF, hrest]
  | cons v t ih =>
    have hsz : psize (v :: t) = 1 + vsize v + psize t := by simp [psize]
    obtain ⟨f, rfl⟩ : ∃ f, fuel = f + 1 := by
      cases fuel with
      | zero => omega
      | succ f => exact ⟨f, rfl⟩
    simp only [encParams, List.append_assoc]
    simp only [parseParamsF, dropLit_append,
      parseValueF_encValue v f ("</value></param>".data ++ (encParams t ++ rest)) (by omega),
      ih f (by omega)]

mutual

theorem vsize_le_enc (v : RpcValue) : vsize v ≤ (encValue v).length := by
  match v with
  | .int i =>
    simp only [vsize, encValue, List.length_append, List.length_cons, List.length_nil]
    omega
  | .boolean b =>
    simp only [vsize, encValue, List.length_append, List.length_cons, List.length_nil]
    omega
  | .str s =>
    simp only [vsize, encValue, List.length_append, List.length_cons, List.length_nil]
    omega
  | .double m e =>
    simp only [vsize, encValue, List.length_append, List.length_cons, List.length_nil]
    omega
  | .dateTime w =>
    simp only [vsize, encValue, List.length_append, List.length_cons, List.length_nil]
    omega
  | .base64 bs =>
    simp only [vsize, encValue, List.length_append, List.length_cons, List.length_nil]
    omega
  | .array items =>
    have h3 := isize_le_enc items
    simp only [vsize, encValue, List.length_append, List.length_cons, List.length_nil]
    omega
  | .strct fs =>
    have h3 := msize_le_enc fs
    simp only [vsize, encValue, List.length_append, List.length_cons, List.length_nil]
    omega
  | .nil =>
    simp only [vsize, encValue, List.length_cons, List.length_nil]
    omega

theorem isize_le_enc (l : List RpcValue) : isize l ≤ (encItems l).length + 1 := by
  match l with
  | [] => simp [isize, encItems]
  | v :: t =>
    have h3 := vsize_le_enc v
    have h4 := isize_le_enc t
    simp only [isize, encItems, List.length_append, List.length_cons, List.length_nil]
    omega

theorem msize_le_enc (l : List (String × RpcValue)) : msize l ≤ (encMembers l).length + 1 := by
  match l with
  | [] => simp [msize, encMembers]
  | (k, v) :: t =>
    have h4 := vsize_le_enc v
    have h5 := msize_le_enc t
    simp only [msize, encMembers, List.length_append, List.length_cons, List.length_nil]
    omega

end

theorem psize_le_enc (l : List RpcValue) : psize l ≤ (encParams l).length + 1 := by
  induction l with
  | nil => simp [psize, encParams]
  | cons v t ih =>
    have h3 := vsize_le_enc v
    simp only [psize, encParams, List.length_append, List.length_cons, List.length_nil]
    omega

theorem parseHeaderChars_plain (X : List Char) : parseHeaderChars (hdrPlain ++ X) = some X := by
  simp only [parseHeaderChars, dropLit_append]

theorem extractFault_faultStruct (f : Fault) :
    extractFault (faultStruct f) = some (f.faultCode, f.faultString) := by
  simp [extractFault, faultStruct, lookupMember]

theorem loadsCharsF_respDoc (ps : List RpcValue) (fuel : Nat) (h : psize ps ≤ fuel) :
    loadsCharsF fuel (hdrPlain ++ respDoc ps) = .ok (ps, none) := by
  have e1 : ∀ X : List Char,
    dropLit "<methodCall><methodName>".data ("<methodResponse>".data ++ X) = none :=
    fun _ => rfl
  have e2 : ∀ X : List Char, dropLit "<fault><value>".data ("<params>".data ++ X) = none :=
    fun _ => rfl
  simp only [respDoc, List.append_assoc]
  simp only [loadsCharsF, parseHeaderChars_plain, e1, e2, dropLit_append,
    parseParamsF_encParams ps fuel "</params></methodResponse>".data h rfl, dropLit_self]

theorem loadsCharsF_faultDoc (f : Fault) (fuel : Nat) (h : vsize (faultStruct f) ≤ fuel) :
    loadsCharsF fuel (hdrPlain ++ faultDoc f) = .error (.fault f.faultCode f.faultString) := by
  have e1 : ∀ X : List Char,
    dropLit "<methodCall><methodName>".data ("<methodResponse>".data ++ X) = none :=
    fun _ => rfl
  simp only [faultDoc, List.append_assoc]
  simp only [loadsCharsF, parseHeaderChars_plain, e1, dropLit_append,
    parseValueF_encValue (faultStruct f) fuel "</value></fault></methodResponse>".data h,
    dropLit_self, extractFault_faultStruct]

theorem loadsCharsF_callDoc (name : String) (ps : List RpcValue) (fuel : Nat)
    (h : psize ps ≤ fuel) :
    loadsCharsF fuel (hdrPlain ++ callDoc name ps) = .ok (ps, some name) := by
  have e9 : ∀ X : List Char,
    dropLit "</methodName><params>".data ('<' :: ("/methodName><params>".data ++ X)) =
      some X := fun _ => rfl
  simp only [callDoc, List.append_assoc]
  rw [show "</methodName><params>".data ++ (encParams ps ++ "</params></methodCall>".data) =
    '<' :: ("/methodName><params>".data ++ (encParams ps ++ "</params></methodCall>".data))
    from rfl]
  simp only [loadsCharsF, parseHeaderChars_plain, dropLit_append, parseTextF_escList, e9,
    parseParamsF_encParams ps fuel "</params></methodCall>".data h rfl, dropLit_self]

theorem loadsChars_respDoc (ps : List RpcValue) :
    loadsChars (hdrPlain ++ respDoc ps) = .ok (ps, none) := by
  apply loadsCharsF_respDoc
  have h := psize_le_enc ps
  simp only [respDoc, List.length_append]
  omega

theorem loadsChars_faultDoc (f : Fault) :
    loadsChars (hdrPlain ++ faultDoc f) = .error (.fault f.faultCode f.faultString) := by
  apply loadsCharsF_faultDoc
  have h := vsize_le_enc (faultStruct f)
  simp only [faultDoc, List.length_append]
  omega

theorem loadsChars_callDoc (name : String) (ps : List RpcValue) :
    loadsChars (hdrPlain ++ callDoc name ps) = .ok (ps, some name) := by
  apply loadsCharsF_callDoc
  have h := psize_le_enc ps
  simp only [callDoc, List.length_append]
  omega

theorem xmlrpclib_loads_utf8Enc (chars : List Char) (u : Bool) :
    xmlrpclib_loads (utf8Enc chars) u = loadsChars chars := by
  simp only [xmlrpclib_loads, utf8Dec_utf8Enc]

theorem except_ok_bind {α β : Type} (x : α) (f : α → Except RpcError β) :
    (Except.ok x : Except RpcError α) >>= f = f x := rfl

theorem except_error_bind {α β : Type} (e : RpcError) (f : α → Except RpcError β) :
    (Except.error e : Except RpcError α) >>= f = Except.error e := rfl

theorem xmlrpc_marshal_value_ok (v : RpcValue) (an : Bool) (hok : (an || nilFree v) = true) :
    xmlrpc_marshal (.value v) an none = .ok (utf8Enc (hdrPlain ++ respDoc [v])) := by
  simp [xmlrpc_marshal, resolveCharset, marshalChars, hok, header, encodeBytes, charsetEnc_utf8,
    except_ok_bind]

theorem xmlrpc_marshal_value_err (v : RpcValue) (an : Bool) (hok : ¬(an || nilFree v) = true) :
    xmlrpc_marshal (.value v) an none = .error .serializationError := by
  simp [xmlrpc_marshal, resolveCharset, marshalChars, hok, except_error_bind]

theorem xmlrpc_marshal_value_inv (v : RpcValue) (an : Bool) (bs : List Nat)
    (h : xmlrpc_marshal (.value v) an none = .ok bs) :
    bs = utf8Enc (hdrPlain ++ respDoc [v]) := by
  by_cases hok : (an || nilFree v) = true
  · rw [xmlrpc_marshal_value_ok v an hok] at h
    injection h with h
    exact h.symm
  · rw [xmlrpc_marshal_value_err v an hok] at h
    cases h

theorem xmlrpc_marshal_fault_ok (f : Fault) (an : Bool) :
    xmlrpc_marshal (.fault f) an none = .ok (utf8Enc (hdrPlain ++ faultDoc f)) := by
  simp [xmlrpc_marshal, resolveCharset, marshalChars, header, encodeBytes, charsetEnc_utf8,
    except_ok_bind]

theorem loadsCharsF_ne_tooLarge (fuel : Nat) (s : List Char) (d : Int) :
    loadsCharsF fuel s ≠ .error (.tooLarge d) := by
  intro hcon
  unfold loadsCharsF at hcon
  repeat' split at hcon
  all_goals simp_all

theorem xmlrpclib_loads_ne_tooLarge (body : List Nat) (u : Bool) (d : Int) :
    xmlrpclib_loads body u ≠ .error (.tooLarge d) := by
  intro hcon
  unfold xmlrpclib_loads at hcon
  split at hcon
  · simp at hcon
  · rw [loadsChars] at hcon
    exact loadsCharsF_ne_tooLarge _ _ d hcon

/-! ## Helper lemmas for the concrete scenario -/

theorem xmlrpc_dumps_call_ok (name : String) (ps : List RpcValue) (an : Bool)
    (hok : (an || nilFreeItems ps) = true) :
    xmlrpc_dumps_call name ps an none = .ok (utf8Enc (hdrPlain ++ callDoc name ps)) := by
  simp [xmlrpc_dumps_call, resolveCharset, hok, header, encodeBytes, charsetEnc_utf8]

theorem demoBody_eq : demoBody = utf8Enc (hdrPlain ++ callDoc "a_method" [.str "what"]) := by
  rw [demoBody, xmlrpc_dumps_call_ok "a_method" [.str "what"] false
    (by simp [nilFreeItems, nilFree])]
  rfl

set_option maxRecDepth 4000 in
theorem parse_demoRequest (u : Bool) :
    parse_xmlrpc_request demoRequest u = .ok ([.str "what"], some "a_method") := by
  have hguard : py2Gt demoRequest.content_length sizeLimit = false := by decide
  rw [parse_xmlrpc_request, hguard]
  rw [show demoRequest.body = demoBody from rfl, demoBody_eq, if_neg (by simp),
    xmlrpclib_loads_utf8Enc, loadsChars_callDoc]

/-! ## The claims -/

/-- C1: a declared content length of exactly `8*1024*1024` bytes passes the
size guard (decoding proceeds on the body), and any declared length
strictly above it makes `parse_xmlrpc_request` raise the too-large error
carrying the declared size. -/
theorem parse_xmlrpc_request_size_boundary :
    (∀ (body : List Nat) (u : Bool),
      parse_xmlrpc_request { content_length := some (8 * 1024 * 1024), body := body } u =
        xmlrpclib_loads body u) ∧
    (∀ (n : Int) (body : List Nat) (u : Bool), 8 * 1024 * 1024 < n →
      parse_xmlrpc_request { content_length := some n, body := body } u =
        .error (.tooLarge n)) := by
  constructor
  · intro body u
    have hng : py2Gt (some 8388608) sizeLimit = false := by decide
    simp [parse_xmlrpc_request, hng]
  · intro n body u hn
    have hgt : py2Gt (some n) sizeLimit = true := by
      simp only [py2Gt, sizeLimit, decide_eq_true_eq]
      omega
    simp [parse_xmlrpc_request, hgt]

/-- Witness for C1 at the boundary: `8*1024*1024` passes, one byte more is
rejected with the declared size in the error. -/
theorem parse_xmlrpc_request_size_boundary_witness :
    parse_xmlrpc_request { content_length := some (8 * 1024 * 1024), body := [] } false =
      xmlrpclib_loads [] false ∧
    parse_xmlrpc_request { content_length := some (8 * 1024 * 1024 + 1), body := [] } false =
      .error (.tooLarge (8 * 1024 * 1024 + 1)) :=
  ⟨parse_xmlrpc_request_size_boundary.1 [] false,
   parse_xmlrpc_request_size_boundary.2 (8 * 1024 * 1024 + 1) [] false (by decide)⟩

/-- C2: when the declared content length exceeds the 8 MiB threshold the
rejection is decided by that declared length alone: every body (and every
`use_datetime`) yields the same too-large error, so no body byte is ever
read or parsed. -/
theorem parse_xmlrpc_request_guard_ignores_body :
    ∀ (n : Int) (body body2 : List Nat) (u u2 : Bool), 8 * 1024 * 1024 < n →
      parse_xmlrpc_request { content_length := some n, body := body } u =
        .error (.tooLarge n) ∧
      parse_xmlrpc_request { content_length := some n, body := body } u =
        parse_xmlrpc_request { content_length := some n, body := body2 } u2 := by
  intro n body body2 u u2 hn
  have hgt : py2Gt (some n) sizeLimit = true := by
    simp only [py2Gt, sizeLimit, decide_eq_true_eq]
    omega
  constructor
  · simp [parse_xmlrpc_request, hgt]
  · simp [parse_xmlrpc_request, hgt]

/-- Witness for C2: an oversized declared length rejects identically for
two different bodies. -/
theorem parse_xmlrpc_request_guard_ignores_body_witness :
    parse_xmlrpc_request { content_length := some (8 * 1024 * 1024 + 7), body := [1, 2] }
      false = .error (.tooLarge (8 * 1024 * 1024 + 7)) ∧
    parse_xmlrpc_request { content_length := some (8 * 1024 * 1024 + 7), body := [1, 2] }
      false = parse_xmlrpc_request
        { content_length := some (8 * 1024 * 1024 + 7), body := [9] } true :=
  parse_xmlrpc_request_guard_ignores_body (8 * 1024 * 1024 + 7) [1, 2] [9] false true
    (by decide)

/-- C10: a missing (`None`) declared content length never trips the size
guard — Python 2 orders `None` below every integer — so decoding always
proceeds on the body, whatever its size. -/
theorem parse_xmlrpc_request_missing_content_length :
    ∀ (body : List Nat) (u : Bool),
      parse_xmlrpc_request { content_length := none, body := body } u =
        xmlrpclib_loads body u ∧
      ∀ d : Int, parse_xmlrpc_request { content_length := none, body := body } u ≠
        .error (.tooLarge d) := by
  intro body u
  have hp : parse_xmlrpc_request { content_length := none, body := body } u =
      xmlrpclib_loads body u := by
    simp [parse_xmlrpc_request, py2Gt]
  exact ⟨hp, fun d => hp ▸ xmlrpclib_loads_ne_tooLarge body u d⟩

/-- C4: whenever marshalling succeeds, `xmlrpc_response` returns the webob
response whose `content_type` is `text/xml`, whose body is exactly the
marshalled document, and whose `content_length` is the byte length of that
body. -/
theorem xmlrpc_response_fields :
    ∀ (data : RpcData) (an : Bool) (enc : Option Charset) (xml : List Nat),
      xmlrpc_marshal data an enc = .ok xml →
      xmlrpc_response data an enc =
        .ok { body := xml, content_type := "text/xml", content_length := xml.length,
              status := "200 OK" } := by
  intro data an enc xml h
  simp [xmlrpc_response, h, except_ok_bind, webobResponse]

/-- Witness for C4 on a concrete value. -/
theorem xmlrpc_response_fields_witness :
    xmlrpc_response (.value (.str "x")) false none =
      .ok { body := (xmlrpc_marshal (.value (.str "x")) false none).toOption.getD []
          , content_type := "text/xml"
          , content_length :=
              ((xmlrpc_marshal (.value (.str "x")) false none).toOption.getD []).length
          , status := "200 OK" } :=
  xmlrpc_response_fields (.value (.str "x")) false none _ rfl

/-- C5: marshalling Nil (`None`) without `allow_none` fails with the
serialization error; with `allow_none` it succeeds and the document
decodes back to Nil. -/
theorem marshal_nil_allow_none :
    xmlrpc_marshal (.value .nil) false none = .error .serializationError ∧
    (xmlrpc_marshal (.value .nil) true none >>= fun bs => xmlrpclib_loads bs false) =
      .ok ([.nil], none) := by
  constructor
  · exact xmlrpc_marshal_value_err .nil false (by simp [nilFree])
  · rw [xmlrpc_marshal_value_ok .nil true (by simp), except_ok_bind, xmlrpclib_loads_utf8Enc,
      loadsChars_respDoc]

/-- C6: for every Nil-free value, decoding the marshalled response yields
exactly the single-element parameter tuple (and no method name). -/
theorem marshal_loads_roundtrip (v : RpcValue) (h : nilFree v = true) :
    (xmlrpc_marshal (.value v) false none >>= fun bs => xmlrpclib_loads bs false) =
      .ok ([v], none) := by
  rw [xmlrpc_marshal_value_ok v false (by simp [h]), except_ok_bind, xmlrpclib_loads_utf8Enc,
    loadsChars_respDoc]

/-- Witness for C6 on a concrete Nil-free value. -/
theorem marshal_loads_roundtrip_witness :
    nilFree (.str "hi") = true ∧
    (xmlrpc_marshal (.value (.str "hi")) false none >>= fun bs => xmlrpclib_loads bs false) =
      .ok ([.str "hi"], none) :=
  ⟨rfl, marshal_loads_roundtrip (.str "hi") rfl⟩

/-- C3: a Fault is marshalled into a fault methodResponse embedding its
code and message (decoding it reproduces exactly that fault), and any
other value is wrapped in a single-element parameter list whose success
document decodes back to that one parameter. -/
theorem xmlrpc_marshal_fault_and_value :
    (∀ (f : Fault) (an u : Bool),
      (xmlrpc_marshal (.fault f) an none >>= fun bs => xmlrpclib_loads bs u) =
        .error (.fault f.faultCode f.faultString)) ∧
    (∀ (v : RpcValue) (an u : Bool) (bs : List Nat),
      xmlrpc_marshal (.value v) an none = .ok bs →
      xmlrpclib_loads bs u = .ok ([v], none)) := by
  constructor
  · intro f an u
    rw [xmlrpc_marshal_fault_ok f an, except_ok_bind, xmlrpclib_loads_utf8Enc,
      loadsChars_faultDoc]
  · intro v an u bs h
    rw [xmlrpc_marshal_value_inv v an bs h, xmlrpclib_loads_utf8Enc, loadsChars_respDoc]

/-- Witness for C3: `Fault(1, "foo")` and the value `true`. -/
theorem xmlrpc_marshal_fault_and_value_witness :
    (xmlrpc_marshal (.fault ⟨1, "foo"⟩) false none >>= fun bs => xmlrpclib_loads bs false) =
      .error (.fault 1 "foo") ∧
    xmlrpclib_loads ((xmlrpc_marshal (.value (.boolean true)) false none).toOption.getD [])
      false = .ok ([.boolean true], none) :=
  ⟨xmlrpc_marshal_fault_and_value.1 ⟨1, "foo"⟩ false false,
   xmlrpc_marshal_fault_and_value.2 (.boolean true) false false _ rfl⟩

set_option maxRecDepth 8000 in
/-- C7: the string `"é"` cannot be marshalled under `us-ascii` — the
encoding error is raised, nothing is substituted or truncated — while
under `iso-8859-1` marshalling succeeds and the XML declaration of the
output document states `encoding='iso-8859-1'`. -/
theorem marshal_charset_enforcement :
    xmlrpc_marshal (.value (.str "é")) false (some .usAscii) = .error .encodingError ∧
    ∃ bs, xmlrpc_marshal (.value (.str "é")) false (some .iso8859_1) = .ok bs ∧
      bs.take "<?xml version='1.0' encoding='iso-8859-1'?>".data.length =
        "<?xml version='1.0' encoding='iso-8859-1'?>".data.map Char.toNat := by
  refine ⟨rfl, ⟨_, rfl, rfl⟩⟩

/-- C8: `XMLRPCView.__call__` looks the decoded method name up on the view
and invokes the found handler on the decoded params positionally, serving
the result through `xmlrpc_response` under the view's options; on the
concrete `a_method`/`("what",)` exchange the response body decodes back to
`(["what"], no method name)`. -/
theorem xmlrpcview_dispatch :
    (∀ (view : XMLRPCView) (params : List RpcValue) (name : String)
        (handler : List RpcValue → RpcData),
      parse_xmlrpc_request view.request view.use_datetime = .ok (params, some name) →
      view.methods name = some handler →
      XMLRPCView.call view = xmlrpc_response (handler params) view.allow_none view.charset) ∧
    (∃ r, XMLRPCView.call demoView = .ok r ∧
      xmlrpclib_loads r.body false = .ok ([.str "what"], none)) := by
  have hgen : ∀ (view : XMLRPCView) (params : List RpcValue) (name : String)
      (handler : List RpcValue → RpcData),
      parse_xmlrpc_request view.request view.use_datetime = .ok (params, some name) →
      view.methods name = some handler →
      XMLRPCView.call view = xmlrpc_response (handler params) view.allow_none view.charset := by
    intro view params name handler hparse hmeth
    simp [XMLRPCView.call, hparse, hmeth, except_ok_bind]
  refine ⟨hgen, ?_⟩
  have hparse : parse_xmlrpc_request demoView.request demoView.use_datetime =
      .ok ([.str "what"], some "a_method") := parse_demoRequest false
  have hmeth : demoView.methods "a_method" = some demoHandler := by
    simp [demoView, demoRegistry]
  have hcall := hgen demoView [.str "what"] "a_method" demoHandler hparse hmeth
  have hresp : xmlrpc_response (.value (.str "what")) false none =
      .ok { body := utf8Enc (hdrPlain ++ respDoc [.str "what"])
          , content_type := "text/xml"
          , content_length := (utf8Enc (hdrPlain ++ respDoc [.str "what"])).length
          , status := "200 OK" } := by
    simp [xmlrpc_response, xmlrpc_marshal_value_ok (.str "what") false rfl, except_ok_bind,
      webobResponse]
  have hcall2 : XMLRPCView.call demoView =
      .ok { body := utf8Enc (hdrPlain ++ respDoc [.str "what"])
          , content_type := "text/xml"
          , content_length := (utf8Enc (hdrPlain ++ respDoc [.str "what"])).length
          , status := "200 OK" } := by
    rw [hcall]
    exact hresp
  refine ⟨_, hcall2, ?_⟩
  show xmlrpclib_loads (utf8Enc (hdrPlain ++ respDoc [.str "what"])) false =
    .ok ([.str "what"], none)
  rw [xmlrpclib_loads_utf8Enc, loadsChars_respDoc]

/-- Witness for C8: the general dispatch equation applied to the concrete
`a_method` view. -/
theorem xmlrpcview_dispatch_witness :
    XMLRPCView.call demoView =
      xmlrpc_response (demoHandler [.str "what"]) demoView.allow_none demoView.charset :=
  xmlrpcview_dispatch.1 demoView [.str "what"] "a_method" demoHandler
    (parse_demoRequest false) rfl

set_option maxRecDepth 4000 in
/-- C9 as stated is false on the code: `includeme` installs the settings
(here `allow_none = true`) as the `XMLRPCView` class defaults, yet the
single-function decorator mode never consults them — `_curried` calls
`parse_xmlrpc_request(request)` and `xmlrpc_response(value)` with the
hard defaults, so a handler returning `None` fails with the serialization
error even though the configured `allow_none` is true.  The options do
not govern serialization in both dispatch modes. -/
theorem codec_options_both_modes_counterexample :
    includeme demoSettings =
      { allow_none := true, use_datetime := true, charset := some .iso8859_1 } ∧
    xmlrpc_view (fun (_ : Unit) (_ : List RpcValue) => RpcData.value .nil) () demoRequest =
      .error .serializationError := by
  constructor
  · rfl
  · rw [show (xmlrpc_view (fun (_ : Unit) (_ : List RpcValue) => RpcData.value .nil) ()
      demoRequest) = (parse_xmlrpc_request demoRequest false >>= fun pr =>
        xmlrpc_response (RpcData.value .nil) false none) from rfl]
    rw [parse_demoRequest false, except_ok_bind]
    simp [xmlrpc_response, xmlrpc_marshal_value_err .nil false (by simp [nilFree]),
      except_error_bind]

/-- C9 (amended): `allow_none`, `use_datetime` and `charset` are
process-wide defaults settable at configuration time by `includeme` and
overridable per subclass, and they govern serialization and
deserialization in the multi-method view mode; the single-function
decorator mode does not consult them and always runs with
`allow_none = false`, `use_datetime = false` and the default charset. -/
theorem codec_options_mode_governance :
    (∀ (s : Settings) (m : String → Option (List RpcValue → RpcData)) (req : Request),
      (mkView (includeme s) m req).allow_none = asbool s.xmlrpc_allow_none ∧
      (mkView (includeme s) m req).use_datetime = asbool s.xmlrpc_use_datetime ∧
      (mkView (includeme s) m req).charset = s.xmlrpc_charset) ∧
    (∀ (s : Settings) (m : String → Option (List RpcValue → RpcData)) (req : Request)
        (params : List RpcValue) (name : String) (handler : List RpcValue → RpcData),
      parse_xmlrpc_request req (asbool s.xmlrpc_use_datetime) = .ok (params, some name) →
      m name = some handler →
      XMLRPCView.call (mkView (includeme s) m req) =
        xmlrpc_response (handler params) (asbool s.xmlrpc_allow_none) s.xmlrpc_charset) ∧
    (∀ (Ctx : Type) (wrapped : Ctx → List RpcValue → RpcData) (context : Ctx) (req : Request),
      xmlrpc_view wrapped context req =
        (parse_xmlrpc_request req false >>= fun pr =>
          xmlrpc_response (wrapped context pr.1) false none)) := by
  refine ⟨fun s m req => ⟨rfl, rfl, rfl⟩, ?_, fun Ctx w c req => rfl⟩
  intro s m req params name handler hparse hmeth
  simp [XMLRPCView.call, mkView, includeme, hparse, hmeth, except_ok_bind]

/-- Witness for C9 (amended): the configured view serves the concrete
exchange under the installed `allow_none` and charset settings. -/
theorem codec_options_mode_governance_witness :
    XMLRPCView.call (mkView (includeme demoSettings) demoRegistry demoRequest) =
      xmlrpc_response (demoHandler [.str "what"]) (asbool demoSettings.xmlrpc_allow_none)
        demoSettings.xmlrpc_charset :=
  codec_options_mode_governance.2.1 demoSettings demoRegistry demoRequest [.str "what"]
    "a_method" demoHandler (parse_demoRequest (asbool demoSettings.xmlrpc_use_datetime)) rfl

/-- Witness for C10 on a concrete request with no declared length. -/
theorem parse_xmlrpc_request_missing_content_length_witness :
    parse_xmlrpc_request { content_length := none, body := [] } false =
      xmlrpclib_loads [] false ∧
    parse_xmlrpc_request { content_length := none, body := [] } false ≠
      .error (.tooLarge 0) :=
  ⟨(parse_xmlrpc_request_missing_content_length [] false).1,
   (parse_xmlrpc_request_missing_content_length [] false).2 0⟩
